import Mathlib

/-!
Verification development for the Mixture-of-Diffusers tiling/fusion module
(`methods/mixtureofdiffusers.py`).

The module's tensor values are modelled over `ℝ`; a latent canvas (or a
tile) is modelled as a `Grid := ℕ → ℕ → ℝ` giving the value at spatial
position `(y, x)` (batch and channel dimensions carry no weight logic and
are dropped).  Each Python function of the module is embedded as a Lean
definition translated line by line from the source.
-/

namespace MoD

/-- A spatial grid of real values, indexed `(y, x)`. -/
abbrev Grid : Type := ℕ → ℕ → ℝ

/-- The all-zero grid. -/
def zeroGrid : Grid := fun _ _ => 0

/-- Axis-aligned bounding box `(x0, y0, x1, y1)`, half-open on the high end,
as used throughout the source (`bbox[0] = x0, bbox[1] = y0, bbox[2] = x1,
bbox[3] = y1`). -/
structure Bbox where
  x0 : ℕ
  y0 : ℕ
  x1 : ℕ
  y1 : ℕ
deriving DecidableEq, Repr

/-- Membership of a canvas point `(y, x)` in a bbox slice
`[:, :, bbox[1]:bbox[3], bbox[0]:bbox[2]]`. -/
def inBbox (b : Bbox) (y x : ℕ) : Prop :=
  b.y0 ≤ y ∧ y < b.y1 ∧ b.x0 ≤ x ∧ x < b.x1

instance (b : Bbox) (y x : ℕ) : Decidable (inBbox b y x) := by
  unfold inBbox; infer_instance

/-- Reading the slice `x_in[:, :, bbox[1]:bbox[3], bbox[0]:bbox[2]]`:
tile coordinates are canvas coordinates shifted by the bbox offset. -/
def sliceOf (g : Grid) (b : Bbox) : Grid :=
  fun y x => g (b.y0 + y) (b.x0 + x)

/-- The in-place accumulation `buf[:, :, bbox[1]:bbox[3], bbox[0]:bbox[2]] += tile`:
inside the bbox the tile value (at tile coordinates) is added, outside the
buffer is untouched. -/
def addAt (buf : Grid) (b : Bbox) (tile : Grid) : Grid :=
  fun y x =>
    if inBbox b y x then buf y x + tile (y - b.y0) (x - b.x0) else buf y x

/-! ### Weight Generator (`MixtureOfDiffusers._gaussian_weights`)

Source:
```
f = lambda x, midpoint, var=0.01: exp(-(x-midpoint)*(x-midpoint) / (tile_w*tile_w) / (2*var)) / sqrt(2*pi*var)
x_probs = [f(x, (tile_w - 1) / 2) for x in range(tile_w)]
y_probs = [f(y,  tile_h      / 2) for y in range(tile_h)]
w = np.outer(y_probs, x_probs)
```
-/

/-- The 1-D Gaussian factor `f` of `_gaussian_weights`, with `var = 0.01`
inlined.  Note the denominator scale is `tile_w * tile_w` in both axes. -/
noncomputable def fGauss (tile_w : ℕ) (midpoint v : ℝ) : ℝ :=
  Real.exp (-(v - midpoint) * (v - midpoint) / ((tile_w : ℝ) * tile_w) / (2 * 0.01)) /
    Real.sqrt (2 * Real.pi * 0.01)

/-- Source `x_probs`: the horizontal Gaussian vector, midpoint `(tile_w - 1) / 2`. -/
noncomputable def x_probs (tile_w : ℕ) : List ℝ :=
  (List.range tile_w).map (fun x : ℕ => fGauss tile_w (((tile_w : ℝ) - 1) / 2) (x : ℝ))

/-- Source `y_probs`: the vertical Gaussian vector, midpoint `tile_h / 2`; the
denominator scale is still `tile_w * tile_w`. -/
noncomputable def y_probs (tile_w tile_h : ℕ) : List ℝ :=
  (List.range tile_h).map (fun y : ℕ => fGauss tile_w ((tile_h : ℝ) / 2) (y : ℝ))

/-- Source `_gaussian_weights`: the outer product `np.outer(y_probs, x_probs)`,
an `h × w` row-major array with entry `(y, x) = y_probs[y] * x_probs[x]`. -/
noncomputable def gaussian_weights (tile_w tile_h : ℕ) : List (List ℝ) :=
  (y_probs tile_w tile_h).map (fun yv => (x_probs tile_w).map (fun xv => yv * xv))

/-- Entry `(y, x)` of the generated kernel (defaulting to `0` out of range). -/
noncomputable def kernelEntry (tile_w tile_h y x : ℕ) : ℝ :=
  ((gaussian_weights tile_w tile_h).getD y []).getD x 0

/-- The spec's formula for the 1-D Gaussian factor, written from the spec's
words (`f(x, mid) = exp(-(x-mid)^2 / (w^2 * 2*0.01)) / sqrt(2*pi*0.01)`),
to be compared with `fGauss` taken from the source. -/
noncomputable def specG (w : ℕ) (mid v : ℝ) : ℝ :=
  Real.exp (-(v - mid) ^ 2 / ((w : ℝ) ^ 2 * (2 * 0.01))) / Real.sqrt (2 * Real.pi * 0.01)

/-! ### Input-validation behaviour of `_gaussian_weights` (for C7)

`tile_w` and `tile_h` are Python ints.  `range(n)` is empty for `n <= 0`,
and the only failure the function can raise on its own is the
`ZeroDivisionError` from `/ (tile_w*tile_w)` when `tile_w == 0`, which
happens on the first evaluation of the lambda `f`.  This model mirrors that
control flow: `none` is a raised exception, `some` a returned array. -/

/-- Python `range(n)` over an `int` argument: empty for `n ≤ 0`. -/
def intRange (n : ℤ) : List ℤ :=
  (List.range n.toNat).map (fun k : ℕ => (k : ℤ))

/-- The lambda `f` with exception semantics: evaluating it raises
`ZeroDivisionError` exactly when `tile_w * tile_w = 0`. -/
noncomputable def fGaussE (tile_w : ℤ) (midpoint v : ℝ) : Option ℝ :=
  if tile_w = 0 then none
  else
    some (Real.exp (-(v - midpoint) * (v - midpoint) / ((tile_w : ℝ) * tile_w) / (2 * 0.01)) /
      Real.sqrt (2 * Real.pi * 0.01))

/-- Left-to-right evaluation of a Python list comprehension whose body may
raise: the first raised exception aborts the whole comprehension. -/
def seqMap {α β : Type} (f : α → Option β) : List α → Option (List β)
  | [] => some []
  | a :: l => (f a).bind (fun b => (seqMap f l).map (fun bs => b :: bs))

/-- Source `_gaussian_weights` over arbitrary integer sizes: build `x_probs`, then
`y_probs`, then the outer product; a raised exception anywhere aborts. -/
noncomputable def gaussian_weights_checked (tile_w tile_h : ℤ) : Option (List (List ℝ)) :=
  (seqMap (fun x : ℤ => fGaussE tile_w (((tile_w : ℝ) - 1) / 2) (x : ℝ)) (intRange tile_w)).bind
    (fun xs =>
      (seqMap (fun y : ℤ => fGaussE tile_w ((tile_h : ℝ) / 2) (y : ℝ)) (intRange tile_h)).bind
        (fun ys => some (ys.map (fun yv => xs.map (fun xv => yv * xv)))))

/-! ### Per-step state and the fusion engine (`MixtureOfDiffusers.apply_model`)

The per-step mutable tensors are made explicit: `x_in` (the caller's canvas
argument) and `x_buffer` (the accumulation buffer attribute).  Every write
the source performs goes through `x_buffer`; `x_in` is only read via
`sliceOf`.  The batched UNet call `md_org_apply_model` is an oracle
`List Grid → List Grid` (the concatenation of the per-tile inputs mapping
to the concatenation of per-tile predictions, so its `i`-th element is the
slice `x_tile_out[i*N:(i+1)*N]`); the per-region `custom_apply_model` call
is an oracle `ℕ → Grid → Grid` indexed by `bbox_id`.  The external
interruption flag is polled once before each batch; the sequence of polled
values is `interrupted : ℕ → Bool`. -/

structure MoDStep where
  x_in : Grid
  x_buffer : Grid

/-- The per-tile accumulation loop of the global sampling phase
(`for i, bbox in enumerate(bboxes): w = per_tile_weights * rescale_factor[slice];
x_buffer[slice] += x_tile_out[i] * w`). -/
def accTiles (outs : List Grid) (per_tile_weights rescale_factor : Grid) :
    List Bbox → ℕ → Grid → Grid
  | [], _, buf => buf
  | b :: bs, i, buf =>
      accTiles outs per_tile_weights rescale_factor bs (i + 1)
        (addAt buf b (fun ty tx =>
          outs.getD i zeroGrid ty tx *
            (per_tile_weights ty tx * rescale_factor (b.y0 + ty) (b.x0 + tx))))

/-- One uniform-tile batch: slice the canvas at every bbox, run the model
once on the concatenated batch, and accumulate every weighted tile
prediction into `x_buffer`. -/
def processBatchS (model : List Grid → List Grid) (per_tile_weights rescale_factor : Grid)
    (bboxes : List Bbox) (s : MoDStep) : MoDStep :=
  { s with
    x_buffer :=
      accTiles (model (bboxes.map (fun b => sliceOf s.x_in b)))
        per_tile_weights rescale_factor bboxes 0 s.x_buffer }

/-- The global sampling loop over batches: the flag is polled before each
batch; a `true` poll aborts with `Except.error` carrying the state at that
point (the source then executes `return x_in`). -/
def runBatchesS (model : List Grid → List Grid) (per_tile_weights rescale_factor : Grid)
    (interrupted : ℕ → Bool) : List (List Bbox) → ℕ → MoDStep → Except MoDStep MoDStep
  | [], _, s => Except.ok s
  | bs :: rest, i, s =>
      if interrupted i then Except.error s
      else
        runBatchesS model per_tile_weights rescale_factor interrupted rest (i + 1)
          (processBatchS model per_tile_weights rescale_factor bs s)

/-- The custom-region loop (`for bbox_id, (bbox, cond, uncond, _) in
enumerate(self.custom_bboxes)`): predict on the region's slice, multiply by
the cached custom weight, accumulate at the bbox slice. -/
def customPhaseS (customModel : ℕ → Grid → Grid) (custom_weights : List Grid) :
    List Bbox → ℕ → MoDStep → MoDStep
  | [], _, s => s
  | b :: bs, i, s =>
      customPhaseS customModel custom_weights bs (i + 1)
        { s with
          x_buffer := addAt s.x_buffer b (fun ty tx =>
            customModel i (sliceOf s.x_in b) ty tx * custom_weights.getD i zeroGrid ty tx) }

/-- The state carried out of the global sampling loop, whether it finished
or was aborted by an interruption. -/
def exceptState (r : Except MoDStep MoDStep) : MoDStep :=
  match r with
  | Except.ok t => t
  | Except.error t => t

/-- Source `apply_model`: zero the step buffer (done by `super().init`, modelled
from the spec: `x_buffer` is recreated zeroed every step), run the global
sampling phase when `global_multiplier > 0` (returning `x_in` if
interrupted), then — only when custom regions exist — optionally rescale
the accumulated buffer by the global multiplier (when it is `> 0` and
differs from `1.0` by more than `1e-6`) and add the custom-region
contributions; the returned tensor is `x_buffer`. -/
noncomputable def applyModelS (model : List Grid → List Grid) (customModel : ℕ → Grid → Grid)
    (global_multiplier : ℝ) (batches : List (List Bbox)) (interrupted : ℕ → Bool)
    (custom_bboxes : List Bbox) (custom_weights : List Grid)
    (per_tile_weights rescale_factor : Grid) (s : MoDStep) : MoDStep × Grid :=
  let s0 : MoDStep := { s with x_buffer := zeroGrid }
  match (if 0 < global_multiplier then
      runBatchesS model per_tile_weights rescale_factor interrupted batches 0 s0
    else Except.ok s0) with
  | Except.error s1 => (s1, s1.x_in)
  | Except.ok s1 =>
      if 0 < custom_bboxes.length then
        let s2 := if 0 < global_multiplier ∧ 1e-6 < |global_multiplier - 1| then
            { s1 with x_buffer := fun y x => s1.x_buffer y x * global_multiplier }
          else s1
        let s3 := customPhaseS customModel custom_weights custom_bboxes 0 s2
        (s3, s3.x_buffer)
      else (s1, s1.x_buffer)

/-- The all-one grid (used for concrete instantiations). -/
def oneGrid : Grid := fun _ _ => 1

/-- A concrete 1×1 bbox at the origin. -/
def bb0 : Bbox := ⟨0, 0, 1, 1⟩

/-- A model oracle returning an all-ones prediction for every tile. -/
def onesModel : List Grid → List Grid := fun ts => ts.map (fun _ => oneGrid)

/-- A custom-region oracle returning its input tile. -/
def idCustomModel : ℕ → Grid → Grid := fun _ g => g

/-! ### `init_custom_bbox` (weight-sum setup) and `init` (rescale setup)

`super().init_custom_bbox` is outside this file's source; modelled from the
spec: it records the custom regions and does not touch `weights`.  The
loop below is the source's
```
for bbox, _, _, m in self.custom_bboxes:
    gaussian_weights = self._gaussian_weights(bbox[2]-bbox[0], bbox[3]-bbox[1]) * m
    self.weights[:, :, bbox[1]:bbox[3], bbox[0]:bbox[2]] += gaussian_weights
    self.custom_weights.append(gaussian_weights.unsqueeze(0).unsqueeze(0))
```
acting on the pair (`weights`, `custom_weights`); a region is `(bbox, m)`
(conditioning plays no role in the weights). -/

/-- Source `init_custom_bbox`: add each custom region's multiplied Gaussian kernel
into `weights` at its bbox offset, appending the kernel to
`custom_weights`, in declaration order. -/
noncomputable def init_custom_bbox :
    List (Bbox × ℝ) → Grid × List Grid → Grid × List Grid
  | [], st => st
  | (b, m) :: rest, (w, cws) =>
      init_custom_bbox rest
        (addAt w b (fun ty tx => kernelEntry (b.x1 - b.x0) (b.y1 - b.y0) ty tx * m),
         cws ++ [(fun ty tx => kernelEntry (b.x1 - b.x0) (b.y1 - b.y0) ty tx * m : Grid)])

/-- The lazily-initialized per-run state touched by `MixtureOfDiffusers.init`
after `super().init` (which, modelled from the spec, recreates the per-step
`x_buffer` and does not touch these fields).  `rescale_factor = none` models
`not hasattr(self, 'rescale_factor')`. -/
structure InitState where
  weights : Grid
  rescale_factor : Option Grid
  custom_bboxes : List Bbox
  custom_weights : List Grid

/-- Source `init`: on the first call (`rescale_factor` absent) compute
`rescale_factor = 1 / weights` and multiply each cached custom weight by
`rescale_factor[bbox slice]` (`.to(device, dtype)` is a no-op here); on
later calls leave this state untouched. -/
noncomputable def init (s : InitState) : InitState :=
  match s.rescale_factor with
  | some _ => s
  | none =>
      let rf : Grid := fun y x => 1 / s.weights y x
      { s with
        rescale_factor := some rf
        custom_weights := s.custom_weights.mapIdx (fun i cw =>
          if i < s.custom_bboxes.length then
            let b := s.custom_bboxes.getD i ⟨0, 0, 0, 0⟩
            fun ty tx => cw ty tx * rf (b.y0 + ty) (b.x0 + tx)
          else cw) }

/-! ### `hook` / `unhook` (attach and detach the prediction entry point) -/

/-- The fields of `shared.sd_model` that `hook`/`unhook` read and write: the
prediction callable `apply_model` (of an arbitrary type `α`) and the marker
attribute `md_org_apply_model` (`none` models the attribute being absent). -/
structure SDModel (α : Type) where
  apply_model : α
  md_org_apply_model : Option α

/-- Source `hook`: if the marker is absent, save the original `apply_model` in the
marker and install the tiled one; otherwise do nothing.  (The run-completion
callback registration has no effect on these fields.) -/
def hook {α : Type} (self_apply_model : α) (m : SDModel α) : SDModel α :=
  match m.md_org_apply_model with
  | some _ => m
  | none => { apply_model := self_apply_model, md_org_apply_model := some m.apply_model }

/-- Source `unhook`: if the marker is present, restore the saved callable and
delete the marker; otherwise do nothing. -/
def unhook {α : Type} (m : SDModel α) : SDModel α :=
  match m.md_org_apply_model with
  | some f => { apply_model := f, md_org_apply_model := none }
  | none => m

/-! ### Theorems -/

theorem getD_map_range {α : Type} (n : ℕ) (f : ℕ → α) (i : ℕ) (d : α) (hi : i < n) :
    ((List.range n).map f).getD i d = f i := by
  rw [List.getD_eq_getElem _ _ (by simpa using hi)]
  simp

theorem kernelEntry_eq (tile_w tile_h y x : ℕ) (hy : y < tile_h) (hx : x < tile_w) :
    kernelEntry tile_w tile_h y x =
      fGauss tile_w ((tile_h : ℝ) / 2) y * fGauss tile_w (((tile_w : ℝ) - 1) / 2) x := by
  unfold kernelEntry gaussian_weights y_probs x_probs
  rw [List.map_map, getD_map_range _ _ _ _ hy, Function.comp_apply, List.map_map,
    getD_map_range _ _ _ _ hx, Function.comp_apply]

theorem fGauss_eq_specG (w : ℕ) (mid v : ℝ) : fGauss w mid v = specG w mid v := by
  unfold fGauss specG
  have harg : -(v - mid) * (v - mid) / ((w : ℝ) * w) / (2 * 0.01) =
      -(v - mid) ^ 2 / ((w : ℝ) ^ 2 * (2 * 0.01)) := by
    ring
  rw [harg]

/-- C1: for positive `w`, `h`, entry `(y, x)` of the Weight Generator's
`h × w` kernel equals `g_v(y) * g_h(x)` with the spec's Gaussian
`g(x, mid) = exp(-(x-mid)^2 / (w^2 * 2*0.01)) / sqrt(2*pi*0.01)`, where the
horizontal factor uses `mid = (w-1)/2`, the vertical factor uses
`mid = h/2`, and both factors use the scale `w^2`. -/
theorem c1_kernel_outer_product (w h y x : ℕ) (hw : 0 < w) (hh : 0 < h)
    (hy : y < h) (hx : x < w) :
    kernelEntry w h y x = specG w ((h : ℝ) / 2) y * specG w (((w : ℝ) - 1) / 2) x := by
  rw [kernelEntry_eq w h y x hy hx, fGauss_eq_specG, fGauss_eq_specG]

/-- Witness for C1 at `w = 2, h = 3, y = 1, x = 0`. -/
theorem c1_witness :
    0 < 2 ∧ 0 < 3 ∧ 1 < 3 ∧ 0 < 2 ∧
      kernelEntry 2 3 1 0 = specG 2 (((3 : ℕ) : ℝ) / 2) ((1 : ℕ) : ℝ) *
        specG 2 ((((2 : ℕ) : ℝ) - 1) / 2) ((0 : ℕ) : ℝ) :=
  ⟨by decide, by decide, by decide, by decide,
    c1_kernel_outer_product 2 3 1 0 (by decide) (by decide) (by decide) (by decide)⟩

/-! ### Bounds on the kernel entries (for C8) -/

theorem sqrtC_pos : 0 < Real.sqrt (2 * Real.pi * 0.01) :=
  Real.sqrt_pos.mpr (by positivity)

theorem fGauss_pos (w : ℕ) (mid v : ℝ) : 0 < fGauss w mid v :=
  div_pos (Real.exp_pos _) sqrtC_pos

theorem fGauss_arg_nonpos (w : ℕ) (mid v : ℝ) :
    -(v - mid) * (v - mid) / ((w : ℝ) * w) / (2 * 0.01) ≤ 0 := by
  apply div_nonpos_of_nonpos_of_nonneg _ (by norm_num)
  apply div_nonpos_of_nonpos_of_nonneg _ (mul_self_nonneg _)
  nlinarith [mul_self_nonneg (v - mid)]

theorem fGauss_le_peak (w : ℕ) (mid v : ℝ) :
    fGauss w mid v ≤ 1 / Real.sqrt (2 * Real.pi * 0.01) := by
  unfold fGauss
  exact (div_le_div_iff_of_pos_right sqrtC_pos).mpr (Real.exp_le_one_iff.mpr (fGauss_arg_nonpos w mid v))

/-- The 1-D factor shrinks as the squared distance to the midpoint grows. -/
theorem fGauss_anti (w : ℕ) (hw : 0 < w) (mid v v' : ℝ)
    (h : (v' - mid) * (v' - mid) ≤ (v - mid) * (v - mid)) :
    fGauss w mid v ≤ fGauss w mid v' := by
  unfold fGauss
  apply (div_le_div_iff_of_pos_right sqrtC_pos).mpr
  apply Real.exp_le_exp.mpr
  have hww : (0 : ℝ) < (w : ℝ) * w := by
    have hw' : (0 : ℝ) < (w : ℝ) := by exact_mod_cast hw
    exact mul_pos hw' hw'
  apply (div_le_div_iff_of_pos_right (by norm_num : (0 : ℝ) < 2 * 0.01)).mpr
  apply (div_le_div_iff_of_pos_right hww).mpr
  rw [neg_mul, neg_mul]
  exact neg_le_neg h

/-- Integer fact behind "the center index minimizes the distance to the
midpoint `m / 2`": `2 * (m / 2) - m` is `0` or `-1`. -/
theorem center_sq_le (m : ℕ) (x : ℤ) :
    (2 * ((m / 2 : ℕ) : ℤ) - (m : ℤ)) ^ 2 ≤ (2 * x - (m : ℤ)) ^ 2 := by
  have hc : 2 * ((m / 2 : ℕ) : ℤ) - (m : ℤ) = 0 ∨
      (2 * ((m / 2 : ℕ) : ℤ) - (m : ℤ) = -1 ∧ 2 * x - (m : ℤ) ≠ 0) := by
    omega
  rcases hc with h | ⟨h1, h2⟩
  · rw [h]
    positivity
  · rw [h1]
    have h3 : 2 * x - (m : ℤ) ≤ -1 ∨ 1 ≤ 2 * x - (m : ℤ) := by omega
    rcases h3 with h3 | h3 <;> nlinarith

theorem real_center_sq_le (m x : ℕ) :
    (((m / 2 : ℕ) : ℝ) - (m : ℝ) / 2) * (((m / 2 : ℕ) : ℝ) - (m : ℝ) / 2) ≤
      ((x : ℝ) - (m : ℝ) / 2) * ((x : ℝ) - (m : ℝ) / 2) := by
  have key := center_sq_le m x
  have keyR : (2 * ((m / 2 : ℕ) : ℝ) - (m : ℝ)) ^ 2 ≤ (2 * (x : ℝ) - (m : ℝ)) ^ 2 := by
    exact_mod_cast key
  nlinarith [keyR]

/-- At the midpoint itself the 1-D factor is exactly `1 / sqrt(2*pi*0.01)`,
which is larger than `1`. -/
theorem fGauss_peak (w : ℕ) (mid : ℝ) :
    fGauss w mid mid = 1 / Real.sqrt (2 * Real.pi * 0.01) := by
  unfold fGauss
  rw [sub_self]
  simp

/-- C8 counterexample: for `w = 1, h = 2` the in-range entry `(y, x) = (1, 0)`
is strictly greater than `1`, so the kernel entries do not lie in `(0, 1]`. -/
theorem c8_counterexample :
    (1 : ℕ) < 2 ∧ (0 : ℕ) < 1 ∧ 1 < kernelEntry 1 2 1 0 := by
  refine ⟨by decide, by decide, ?_⟩
  rw [kernelEntry_eq 1 2 1 0 (by decide) (by decide)]
  norm_num
  rw [fGauss_peak, fGauss_peak, div_mul_div_comm, one_mul,
    Real.mul_self_sqrt (by positivity)]
  exact one_lt_one_div (by positivity) (by nlinarith [Real.pi_lt_four, Real.pi_pos])

/-- C8 (amended): for positive `w`, `h`, every in-range entry of the
Weight Generator's kernel is strictly positive, bounded above by
`1 / (2*pi*0.01)` (the squared peak of the 1-D factor, about `15.9` — not
by `1`), and no entry exceeds the center entry at
`(y, x) = (h / 2, (w - 1) / 2)` (integer division). -/
theorem c8_entry_bounds (w h y x : ℕ) (hw : 0 < w) (hh : 0 < h)
    (hy : y < h) (hx : x < w) :
    0 < kernelEntry w h y x ∧
      kernelEntry w h y x ≤ 1 / (2 * Real.pi * 0.01) ∧
      kernelEntry w h y x ≤ kernelEntry w h (h / 2) ((w - 1) / 2) := by
  have hyc : h / 2 < h := Nat.div_lt_self hh (by norm_num)
  have hxc : (w - 1) / 2 < w := by omega
  rw [kernelEntry_eq w h y x hy hx, kernelEntry_eq w h _ _ hyc hxc]
  refine ⟨mul_pos (fGauss_pos _ _ _) (fGauss_pos _ _ _), ?_, ?_⟩
  · have b1 := fGauss_le_peak w ((h : ℝ) / 2) y
    have b2 := fGauss_le_peak w (((w : ℝ) - 1) / 2) x
    have p2 := fGauss_pos w (((w : ℝ) - 1) / 2) (x : ℝ)
    have hs := sqrtC_pos
    calc fGauss w ((h : ℝ) / 2) y * fGauss w (((w : ℝ) - 1) / 2) x
        ≤ (1 / Real.sqrt (2 * Real.pi * 0.01)) * (1 / Real.sqrt (2 * Real.pi * 0.01)) :=
          mul_le_mul b1 b2 (le_of_lt p2) (le_of_lt (div_pos one_pos hs))
      _ = 1 / (2 * Real.pi * 0.01) := by
          rw [div_mul_div_comm, one_mul, Real.mul_self_sqrt (by positivity)]
  · have hv : (((h / 2 : ℕ) : ℝ) - (h : ℝ) / 2) * (((h / 2 : ℕ) : ℝ) - (h : ℝ) / 2) ≤
        ((y : ℝ) - (h : ℝ) / 2) * ((y : ℝ) - (h : ℝ) / 2) := real_center_sq_le h y
    have hcast : (((w - 1 : ℕ)) : ℝ) = (w : ℝ) - 1 := by
      have h1 : 1 ≤ w := hw
      push_cast [h1]
      ring
    have hh2 : ((((w - 1) / 2 : ℕ) : ℝ) - ((w : ℝ) - 1) / 2) *
        ((((w - 1) / 2 : ℕ) : ℝ) - ((w : ℝ) - 1) / 2) ≤
        ((x : ℝ) - ((w : ℝ) - 1) / 2) * ((x : ℝ) - ((w : ℝ) - 1) / 2) := by
      have := real_center_sq_le (w - 1) x
      rw [hcast] at this
      exact this
    exact mul_le_mul (fGauss_anti w hw _ _ _ hv) (fGauss_anti w hw _ _ _ hh2)
      (le_of_lt (fGauss_pos _ _ _)) (le_of_lt (fGauss_pos _ _ _))

/-- Witness for C8 (amended) at `w = 3, h = 3, y = 0, x = 0`. -/
theorem c8_witness :
    0 < 3 ∧ 0 < 3 ∧ 0 < 3 ∧ 0 < 3 ∧
      (0 < kernelEntry 3 3 0 0 ∧
        kernelEntry 3 3 0 0 ≤ 1 / (2 * Real.pi * 0.01) ∧
        kernelEntry 3 3 0 0 ≤ kernelEntry 3 3 (3 / 2) ((3 - 1) / 2)) :=
  ⟨by decide, by decide, by decide, by decide,
    c8_entry_bounds 3 3 0 0 (by decide) (by decide) (by decide) (by decide)⟩

theorem seqMap_ne_none {α β : Type} (f : α → Option β)
    (hf : ∀ a, f a ≠ none) : ∀ l : List α, seqMap f l ≠ none := by
  intro l
  induction l with
  | nil => simp [seqMap]
  | cons a l ih =>
    simp only [seqMap]
    obtain ⟨b, hb⟩ := Option.ne_none_iff_exists'.mp (hf a)
    obtain ⟨bs, hbs⟩ := Option.ne_none_iff_exists'.mp ih
    simp [hb, hbs]

theorem seqMap_eq_none {α β : Type} (f : α → Option β)
    (hf : ∀ a, f a = none) : ∀ l : List α, l ≠ [] → seqMap f l = none := by
  intro l hl
  cases l with
  | nil => exact absurd rfl hl
  | cons a l => simp [seqMap, hf]

/-- C7 counterexample: at `tile_w = 2, tile_h = -3` (so `h ≤ 0`) the Weight
Generator raises nothing and returns an empty array instead of failing with
an invalid-argument condition. -/
theorem c7_counterexample :
    (-3 : ℤ) ≤ 0 ∧ gaussian_weights_checked 2 (-3) = some [] := by
  refine ⟨by decide, ?_⟩
  unfold gaussian_weights_checked
  have h1 : intRange 2 = [(0 : ℤ), 1] := by decide
  have h2 : intRange (-3) = [] := by decide
  rw [h1, h2]
  simp [seqMap, fGaussE]

/-- C7 (amended): the Weight Generator performs no input validation.  It
fails only in the single case `tile_w = 0` with `tile_h > 0` — and then
with a division-by-zero, not an invalid-argument check; for every other
non-positive input it silently returns a (possibly empty) array. -/
theorem c7_failure_iff (tile_w tile_h : ℤ) :
    gaussian_weights_checked tile_w tile_h = none ↔ tile_w = 0 ∧ 0 < tile_h := by
  unfold gaussian_weights_checked
  by_cases hw : tile_w = 0
  · subst hw
    have h0 : intRange 0 = [] := by decide
    rw [h0]
    by_cases hh : 0 < tile_h
    · have hne : intRange tile_h ≠ [] := by
        unfold intRange
        simp only [ne_eq, List.map_eq_nil_iff, List.range_eq_nil]
        omega
      rw [seqMap_eq_none _ (fun a => by simp [fGaussE]) _ hne]
      simpa using hh
    · have he : intRange tile_h = [] := by
        unfold intRange
        simp only [List.map_eq_nil_iff, List.range_eq_nil]
        omega
      rw [he]
      simp only [seqMap]
      simpa using hh
  · have h1 : seqMap (fun x : ℤ => fGaussE tile_w (((tile_w : ℝ) - 1) / 2) (x : ℝ))
        (intRange tile_w) ≠ none :=
      seqMap_ne_none _ (fun a => by simp [fGaussE, hw]) _
    have h2 : seqMap (fun y : ℤ => fGaussE tile_w ((tile_h : ℝ) / 2) (y : ℝ))
        (intRange tile_h) ≠ none :=
      seqMap_ne_none _ (fun a => by simp [fGaussE, hw]) _
    obtain ⟨xs, hxs⟩ := Option.ne_none_iff_exists'.mp h1
    obtain ⟨ys, hys⟩ := Option.ne_none_iff_exists'.mp h2
    rw [hxs, hys]
    simp [hw]

theorem accTiles_eq (outs : List Grid) (ptw rescale : Grid) :
    ∀ (bboxes : List Bbox) (i : ℕ) (buf : Grid) (y x : ℕ),
      accTiles outs ptw rescale bboxes i buf y x =
        buf y x + ((bboxes.enumFrom i).map (fun p =>
          if inBbox p.2 y x then
            outs.getD p.1 zeroGrid (y - p.2.y0) (x - p.2.x0) *
              (ptw (y - p.2.y0) (x - p.2.x0) * rescale y x)
          else 0)).sum := by
  intro bboxes
  induction bboxes with
  | nil => intro i buf y x; simp [accTiles]
  | cons b bs ih =>
    intro i buf y x
    simp only [accTiles]
    rw [ih, List.enumFrom_cons, List.map_cons, List.sum_cons]
    simp only [addAt]
    by_cases hin : inBbox b y x
    · rw [if_pos hin, if_pos hin, Nat.add_sub_cancel' hin.1,
        Nat.add_sub_cancel' hin.2.2.1]
      ring
    · rw [if_neg hin, if_neg hin]
      ring

theorem processBatchS_x_in (model : List Grid → List Grid) (ptw rescale : Grid)
    (bboxes : List Bbox) (s : MoDStep) :
    (processBatchS model ptw rescale bboxes s).x_in = s.x_in := rfl

theorem customPhaseS_x_in (cm : ℕ → Grid → Grid) (cws : List Grid) :
    ∀ (bs : List Bbox) (i : ℕ) (s : MoDStep),
      (customPhaseS cm cws bs i s).x_in = s.x_in := by
  intro bs
  induction bs with
  | nil => intro i s; rfl
  | cons b rest ih =>
    intro i s
    simp only [customPhaseS]
    rw [ih]

theorem runBatchesS_x_in (model : List Grid → List Grid) (ptw rescale : Grid)
    (intr : ℕ → Bool) :
    ∀ (batches : List (List Bbox)) (i : ℕ) (s : MoDStep),
      (exceptState (runBatchesS model ptw rescale intr batches i s)).x_in = s.x_in := by
  intro batches
  induction batches with
  | nil => intro i s; rfl
  | cons bs rest ih =>
    intro i s
    simp only [runBatchesS]
    by_cases hi : intr i = true
    · rw [if_pos hi]; rfl
    · rw [if_neg hi]
      rw [ih]
      rfl

theorem runBatchesS_aborts (model : List Grid → List Grid) (ptw rescale : Grid)
    (intr : ℕ → Bool) :
    ∀ (batches : List (List Bbox)) (i k : ℕ) (s : MoDStep),
      k < batches.length → intr (i + k) = true →
      ∃ e, runBatchesS model ptw rescale intr batches i s = Except.error e := by
  intro batches
  induction batches with
  | nil =>
    intro i k s hk _
    exact absurd hk (by simp)
  | cons bs rest ih =>
    intro i k s hk hik
    simp only [runBatchesS]
    by_cases hi : intr i = true
    · rw [if_pos hi]; exact ⟨s, rfl⟩
    · rw [if_neg hi]
      rcases k with _ | k'
      · rw [Nat.add_zero] at hik
        exact absurd hik hi
      · have hik' : intr (i + 1 + k') = true := by
          have he : i + 1 + k' = i + (k' + 1) := by omega
          rw [he]
          exact hik
        exact ih (i + 1) k' _ (by simpa using hk) hik'

/-- C2: in the uniform-tile fusion phase, the contribution a batch
accumulates into the output buffer at a canvas point is the sum, over the
batch's (indexed) bboxes containing that point, of the model's prediction
for that tile times `per_tile_weights * rescale_factor[bbox_slice]`,
evaluated at the point's tile coordinates — nothing more is added. -/
theorem c2_uniform_fusion_contribution (model : List Grid → List Grid)
    (per_tile_weights rescale_factor : Grid) (bboxes : List Bbox)
    (s : MoDStep) (y x : ℕ) :
    (processBatchS model per_tile_weights rescale_factor bboxes s).x_buffer y x =
      s.x_buffer y x +
        ((bboxes.enumFrom 0).map (fun p =>
          if inBbox p.2 y x then
            (model (bboxes.map (fun b => sliceOf s.x_in b))).getD p.1 zeroGrid
                (y - p.2.y0) (x - p.2.x0) *
              (per_tile_weights (y - p.2.y0) (x - p.2.x0) * rescale_factor y x)
          else 0)).sum := by
  simp only [processBatchS]
  exact accTiles_eq _ _ _ bboxes 0 s.x_buffer y x

/-- C6: if the polled interruption flag is `true` before some uniform-tile
batch, `apply_model` aborts the remaining work and returns the input canvas
`x_in` unchanged. -/
theorem c6_interrupt_returns_input (model : List Grid → List Grid)
    (customModel : ℕ → Grid → Grid) (global_multiplier : ℝ)
    (batches : List (List Bbox)) (interrupted : ℕ → Bool)
    (custom_bboxes : List Bbox) (custom_weights : List Grid)
    (per_tile_weights rescale_factor : Grid) (s : MoDStep) (k : ℕ)
    (hgm : 0 < global_multiplier) (hk : k < batches.length)
    (hik : interrupted k = true) :
    (applyModelS model customModel global_multiplier batches interrupted
      custom_bboxes custom_weights per_tile_weights rescale_factor s).2 = s.x_in := by
  obtain ⟨e, he⟩ := runBatchesS_aborts model per_tile_weights rescale_factor interrupted
    batches 0 k { s with x_buffer := zeroGrid } hk (by simpa using hik)
  have hx : e.x_in = s.x_in := by
    have h2 := runBatchesS_x_in model per_tile_weights rescale_factor interrupted
      batches 0 { s with x_buffer := zeroGrid }
    rw [he] at h2
    exact h2
  simp only [applyModelS]
  rw [if_pos hgm, he]
  exact hx

/-- Witness for C6: three batches, flag polled `false` before the first and
`true` before the second; the call returns the original input canvas. -/
theorem c6_witness :
    (applyModelS onesModel idCustomModel 1 [[bb0], [bb0], [bb0]]
      (fun n => decide (n = 1)) [] [] oneGrid oneGrid
      ⟨zeroGrid, zeroGrid⟩).2 = (⟨zeroGrid, zeroGrid⟩ : MoDStep).x_in :=
  c6_interrupt_returns_input onesModel idCustomModel 1 [[bb0], [bb0], [bb0]]
    (fun n => decide (n = 1)) [] [] oneGrid oneGrid ⟨zeroGrid, zeroGrid⟩ 1
    (by norm_num) (by decide) (by decide)

/-- C10: `apply_model` never writes to its input canvas: in every case
(interrupted or not, with or without custom regions or buffer rescaling)
the `x_in` component of the resulting state is the one it started with. -/
theorem c10_input_canvas_not_mutated (model : List Grid → List Grid)
    (customModel : ℕ → Grid → Grid) (global_multiplier : ℝ)
    (batches : List (List Bbox)) (interrupted : ℕ → Bool)
    (custom_bboxes : List Bbox) (custom_weights : List Grid)
    (per_tile_weights rescale_factor : Grid) (s : MoDStep) :
    (applyModelS model customModel global_multiplier batches interrupted
      custom_bboxes custom_weights per_tile_weights rescale_factor s).1.x_in = s.x_in := by
  simp only [applyModelS]
  rcases hr : (if 0 < global_multiplier then
      runBatchesS model per_tile_weights rescale_factor interrupted batches 0
        { s with x_buffer := zeroGrid }
    else Except.ok { s with x_buffer := zeroGrid }) with s1 | s1
  case error =>
    have hs1 : s1.x_in = s.x_in := by
      by_cases hgm : 0 < global_multiplier
      · rw [if_pos hgm] at hr
        have h2 := runBatchesS_x_in model per_tile_weights rescale_factor interrupted
          batches 0 { s with x_buffer := zeroGrid }
        rw [hr] at h2
        exact h2
      · rw [if_neg hgm] at hr
        simp at hr
    exact hs1
  case ok =>
    have hs1 : s1.x_in = s.x_in := by
      by_cases hgm : 0 < global_multiplier
      · rw [if_pos hgm] at hr
        have h2 := runBatchesS_x_in model per_tile_weights rescale_factor interrupted
          batches 0 { s with x_buffer := zeroGrid }
        rw [hr] at h2
        exact h2
      · rw [if_neg hgm] at hr
        cases hr
        rfl
    simp only []
    by_cases hlen : 0 < custom_bboxes.length
    · rw [if_pos hlen]
      by_cases hsc : 0 < global_multiplier ∧ 1e-6 < |global_multiplier - 1|
      · rw [if_pos hsc]
        exact (customPhaseS_x_in _ _ _ _ _).trans hs1
      · rw [if_neg hsc]
        exact (customPhaseS_x_in _ _ _ _ _).trans hs1
    · rw [if_neg hlen]
      exact hs1

/-- C5 counterexample: with `global_multiplier = 2` (positive and more than
`1e-6` away from `1.0`) but no custom regions, the accumulated buffer holds
`1` at the origin and the returned buffer also holds `1`, not `2 * 1`: the
scaling step did not run, because it is guarded by
`len(self.custom_bboxes) > 0`. -/
theorem c5_counterexample :
    (0 : ℝ) < 2 ∧ 1e-6 < |(2 : ℝ) - 1| ∧
    (exceptState (runBatchesS onesModel oneGrid oneGrid (fun _ => false)
      [[bb0]] 0 ⟨zeroGrid, zeroGrid⟩)).x_buffer 0 0 = 1 ∧
    (applyModelS onesModel idCustomModel 2 [[bb0]] (fun _ => false) [] []
      oneGrid oneGrid ⟨zeroGrid, zeroGrid⟩).2 0 0 = 1 ∧
    (1 : ℝ) ≠ 2 * 1 := by
  refine ⟨by norm_num, ?_, ?_, ?_, by norm_num⟩
  · rw [show (2 : ℝ) - 1 = 1 by norm_num, abs_one]
    norm_num
  · norm_num [runBatchesS, processBatchS, accTiles, addAt, inBbox, sliceOf,
      onesModel, oneGrid, zeroGrid, bb0, exceptState]
  · norm_num [applyModelS, runBatchesS, processBatchS, accTiles, addAt, inBbox,
      sliceOf, onesModel, oneGrid, zeroGrid, bb0, customPhaseS, exceptState]

/-- C5 (amended): when at least one custom region exists and the global
multiplier phase ran (`global_multiplier > 0`), the entire accumulated
`x_buffer` is scaled by the global multiplier before any custom-region
contribution is added, provided `|global_multiplier - 1| > 1e-6`; if the
multiplier is within `1e-6` of `1.0`, no scaling occurs.  (Without custom
regions no scaling happens either: the scaling sits inside the
`len(self.custom_bboxes) > 0` guard.) -/
theorem c5_scale_before_custom (model : List Grid → List Grid)
    (customModel : ℕ → Grid → Grid) (global_multiplier : ℝ)
    (batches : List (List Bbox)) (interrupted : ℕ → Bool)
    (custom_bboxes : List Bbox) (custom_weights : List Grid)
    (per_tile_weights rescale_factor : Grid) (s s1 : MoDStep)
    (hgm : 0 < global_multiplier)
    (hrun : runBatchesS model per_tile_weights rescale_factor interrupted batches 0
      { s with x_buffer := zeroGrid } = Except.ok s1)
    (hne : custom_bboxes ≠ []) :
    (1e-6 < |global_multiplier - 1| →
      (applyModelS model customModel global_multiplier batches interrupted
        custom_bboxes custom_weights per_tile_weights rescale_factor s).2 =
        (customPhaseS customModel custom_weights custom_bboxes 0
          { s1 with x_buffer := fun y x => s1.x_buffer y x * global_multiplier }).x_buffer) ∧
    (|global_multiplier - 1| ≤ 1e-6 →
      (applyModelS model customModel global_multiplier batches interrupted
        custom_bboxes custom_weights per_tile_weights rescale_factor s).2 =
        (customPhaseS customModel custom_weights custom_bboxes 0 s1).x_buffer) := by
  have hlen : 0 < custom_bboxes.length := List.length_pos.mpr hne
  constructor
  · intro heps
    simp only [applyModelS]
    rw [if_pos hgm, hrun]
    simp only []
    rw [if_pos hlen, if_pos ⟨hgm, heps⟩]
  · intro heps
    simp only [applyModelS]
    rw [if_pos hgm, hrun]
    simp only []
    rw [if_pos hlen, if_neg (fun hc => absurd hc.2 (not_lt.mpr heps))]

/-- Witness for C5 (amended): `global_multiplier = 2`, no batches, one
custom region; the returned buffer is the custom phase applied to the
accumulated buffer scaled by `2`. -/
theorem c5_witness :
    (applyModelS onesModel idCustomModel 2 [] (fun _ => false) [bb0] [oneGrid]
      oneGrid oneGrid ⟨zeroGrid, zeroGrid⟩).2 =
      (customPhaseS idCustomModel [oneGrid] [bb0] 0
        ⟨zeroGrid, fun y x => zeroGrid y x * 2⟩).x_buffer :=
  (c5_scale_before_custom onesModel idCustomModel 2 [] (fun _ => false) [bb0]
    [oneGrid] oneGrid oneGrid ⟨zeroGrid, zeroGrid⟩ ⟨zeroGrid, zeroGrid⟩
    (by norm_num) rfl (by decide)).1
    (by rw [show (2 : ℝ) - 1 = 1 by norm_num, abs_one]; norm_num)

/-- C3: during weight-sum setup only the custom regions contribute: the
resulting `weights` buffer is the initial one plus, at each canvas point,
the sum over the declared regions containing it of that region's Gaussian
kernel times its blend multiplier; and `custom_weights` receives exactly
the per-region multiplied kernels, in declaration order. -/
theorem c3_custom_regions_only (regions : List (Bbox × ℝ)) (w0 : Grid)
    (cws0 : List Grid) (y x : ℕ) :
    (init_custom_bbox regions (w0, cws0)).1 y x =
      w0 y x + (regions.map (fun r =>
        if inBbox r.1 y x then
          kernelEntry (r.1.x1 - r.1.x0) (r.1.y1 - r.1.y0) (y - r.1.y0) (x - r.1.x0) * r.2
        else 0)).sum ∧
    (init_custom_bbox regions (w0, cws0)).2 =
      cws0 ++ regions.map (fun r =>
        (fun ty tx => kernelEntry (r.1.x1 - r.1.x0) (r.1.y1 - r.1.y0) ty tx * r.2 : Grid)) := by
  induction regions generalizing w0 cws0 with
  | nil => simp [init_custom_bbox]
  | cons r rest ih =>
    obtain ⟨b, m⟩ := r
    simp only [init_custom_bbox, List.map_cons, List.sum_cons]
    constructor
    · rw [(ih _ _).1]
      simp only [addAt]
      by_cases hin : inBbox b y x
      · rw [if_pos hin, if_pos hin]
        ring
      · rw [if_neg hin, if_neg hin]
        ring
    · rw [(ih _ _).2]
      simp

theorem init_marker_some (t : InitState) (g : Grid)
    (ht : t.rescale_factor = some g) : init t = t := by
  unfold init
  rw [ht]

/-- C4: the rescale finalization runs at most once: `init` is idempotent,
so after the first call every further call leaves `rescale_factor` and all
cached custom weights unchanged and the rescale is never double-applied. -/
theorem c4_init_idempotent (s : InitState) : init (init s) = init s := by
  cases hr : s.rescale_factor with
  | some g =>
    rw [init_marker_some s g hr, init_marker_some s g hr]
  | none =>
    have h1 : (init s).rescale_factor = some (fun y x => 1 / s.weights y x) := by
      unfold init
      rw [hr]
    exact init_marker_some _ _ h1

/-- C9: for a model whose marker attribute is absent, `unhook (hook g m)`
restores the original prediction callable and removes the marker — the
state is exactly the original one — and `unhook` alone is a no-op. -/
theorem c9_detach_restores {α : Type} (g : α) (m : SDModel α)
    (h : m.md_org_apply_model = none) :
    unhook (hook g m) = m ∧ unhook m = m := by
  obtain ⟨f, o⟩ := m
  simp only at h
  subst h
  exact ⟨rfl, rfl⟩

/-- Witness for C9 with `α = ℕ`, original callable `5`, hooked callable `7`. -/
theorem c9_witness :
    (⟨5, none⟩ : SDModel ℕ).md_org_apply_model = none ∧
    (unhook (hook 7 (⟨5, none⟩ : SDModel ℕ)) = ⟨5, none⟩ ∧
      unhook (⟨5, none⟩ : SDModel ℕ) = ⟨5, none⟩) :=
  ⟨rfl, c9_detach_restores 7 ⟨5, none⟩ rfl⟩

end MoD
